import Mathlib

/-!
# Verification of the Go web scraper (src/api/index.go)

A shallow embedding of the scrape-and-normalize pipeline and the
recent-history tracker of the web scraper, together with theorems
settling the specification claims about them.

Strings are modelled through their character lists. The hrefs and
separators the program matches against ("http", "mailto:", "/") are
ASCII, so Go's byte-level prefix/suffix tests coincide with the
character-level tests used here (an ASCII byte in valid UTF-8 is always
a rune boundary).
-/

namespace Scraper

/-- `listStarts p l` : `p` is an initial segment of `l`
(character-level model of Go `strings.HasPrefix`). -/
def listStarts : List Char → List Char → Bool
  | [], _ => true
  | _ :: _, [] => false
  | p :: ps, c :: cs => p = c && listStarts ps cs

/-- Go `strings.HasPrefix s pre`. -/
def goStartsWith (s pre : String) : Bool :=
  listStarts pre.data s.data

/-- Go `strings.HasSuffix s suffix`. -/
def goEndsWith (s suffix : String) : Bool :=
  listStarts suffix.data.reverse s.data.reverse

/-- Go `strings.TrimSuffix s suffix`: drop one trailing copy of `suffix` when present. -/
def goTrimSuffix (s suffix : String) : String :=
  if goEndsWith s suffix then ⟨s.data.take (s.data.length - suffix.data.length)⟩ else s

/-- Go `unicode.IsSpace`: the Unicode White_Space property, whose full
table is U+0009-U+000D, U+0020, U+0085, U+00A0, U+1680, U+2000-U+200A,
U+2028, U+2029, U+202F, U+205F and U+3000. -/
def goIsSpace (c : Char) : Bool :=
  c = ' ' || c = '\t' || c = '\n' || c = '\x0b' || c = '\x0c' || c = '\r' ||
    c = '\x85' || c = '\xa0' || c = '\u1680' ||
    c = '\u2000' || c = '\u2001' || c = '\u2002' || c = '\u2003' ||
    c = '\u2004' || c = '\u2005' || c = '\u2006' || c = '\u2007' ||
    c = '\u2008' || c = '\u2009' || c = '\u200a' ||
    c = '\u2028' || c = '\u2029' || c = '\u202f' || c = '\u205f' || c = '\u3000'

/-- Go `strings.TrimSpace`: strip leading and trailing whitespace. -/
def goTrimSpace (s : String) : String :=
  ⟨((s.data.dropWhile goIsSpace).reverse.dropWhile goIsSpace).reverse⟩

/-- Split a character list on every occurrence of `sep`
(model of Go `strings.Split` with a one-character separator). -/
def splitOnChar (sep : Char) : List Char → List (List Char)
  | [] => [[]]
  | c :: cs =>
    match splitOnChar sep cs, decide (c = sep) with
    | r, true => [] :: r
    | [], false => [[c]]
    | h :: t, false => (c :: h) :: t

/-- Go `strings.Split url "/"`. -/
def goSplitSlash (s : String) : List String :=
  (splitOnChar '/' s.data).map String.mk

/-- Go `strings.Join parts "/"` (general separator). -/
def goJoin (sep : String) : List String → String
  | [] => ""
  | [x] => x
  | x :: y :: xs => x ++ sep ++ goJoin sep (y :: xs)

/-- Link normalization performed inline in `scrapeWebsite`
(src/api/index.go lines 138-151): leave empty, `http`-prefixed and
`mailto:`-prefixed hrefs alone; resolve root-relative hrefs against the
first three `/`-separated segments of the page URL; join the rest
path-relatively. -/
def normalizeLink (url link : String) : String :=
  if link ≠ "" ∧ ¬ goStartsWith link "http" ∧ ¬ goStartsWith link "mailto:" then
    if goStartsWith link "/" then
      let parts := goSplitSlash url
      if parts.length ≥ 3 then
        goJoin "/" (parts.take 3) ++ link
      else
        goTrimSuffix url "/" ++ link
    else
      goTrimSuffix url "/" ++ "/" ++ link
  else link

/-- The link normalizer as the specification words it, rules 1-4 in the
spec's own precedence (for comparison with `normalizeLink`, which is
translated from the code). -/
def specNormalize (baseURL href : String) : String :=
  if href = "" then ""
  else if goStartsWith href "http" ∨ goStartsWith href "mailto:" then href
  else if goStartsWith href "/" then
    if (goSplitSlash baseURL).length ≥ 3 then
      goJoin "/" ((goSplitSlash baseURL).take 3) ++ href
    else
      goTrimSuffix baseURL "/" ++ href
  else goTrimSuffix baseURL "/" ++ "/" ++ href

/-- `addToVisited` (src/api/index.go lines 86-102): move an already
present URL to the end, else append and evict the front entry when the
length passes 10. The Go loop removes the first index holding `url`,
which is `List.erase`. -/
def addToVisited (visitedURLs : List String) (url : String) : List String :=
  if url ∈ visitedURLs then
    visitedURLs.erase url ++ [url]
  else
    let grown := visitedURLs ++ [url]
    if grown.length > 10 then grown.drop 1 else grown

/-- `getVisited` (src/api/index.go lines 104-113): copy the shared list,
reverse the copy in place with a two-index swap loop, return it. The
first component is the returned snapshot; the second is the shared list
as the call leaves it. -/
def getVisited (visitedURLs : List String) : List String × List String :=
  let copied := visitedURLs
  (copied.reverse, visitedURLs)

/-- The documented history invariant: at most 10 entries, no duplicates. -/
def VisitInvariant (v : List String) : Prop :=
  v.length ≤ 10 ∧ v.Nodup

instance (v : List String) : Decidable (VisitInvariant v) :=
  inferInstanceAs (Decidable (_ ∧ _))

/-- One matched DOM node as the scrape loop sees it: its text content
and its `href` attribute (`none` when the attribute is absent). -/
structure HTMLNode where
  text : String
  href : Option String
deriving DecidableEq

/-- One extracted result (struct `ScrapeResult` in src/api/index.go). -/
structure ScrapeResult where
  Title : String
  Link : String
deriving DecidableEq

/-- The body of the `Each` callback (src/api/index.go lines 132-154) for
one node: skip when the trimmed text is empty, otherwise normalize the
href (`s.Attr("href")` yields `""` for a missing attribute) and build
the result. -/
def processNode (url : String) (node : HTMLNode) : Option ScrapeResult :=
  let title := goTrimSpace node.text
  if title = "" then none
  else some ⟨title, normalizeLink url (node.href.getD "")⟩

/-- The full `Each` loop over the matched nodes, in document order. -/
def scrapeResults (url : String) (nodes : List HTMLNode) : List ScrapeResult :=
  nodes.filterMap (processNode url)

/-- Outcome of `http.Get` inside `scrapeWebsite`: a transport failure or
a response with status code, status line and body. -/
inductive HTTPOutcome where
  | failure (msg : String)
  | response (statusCode : Nat) (status : String) (body : String)

/-- Outcome of `goquery.NewDocumentFromReader`: a parse failure or a
document, modelled by its `Find` function from selector strings to the
matched nodes in document order. -/
inductive ParseOutcome where
  | failure (msg : String)
  | document (find : String → List HTMLNode)

/-- The errors `scrapeWebsite` can return, one constructor per `return
nil, err` site: transport failure, the `fmt.Errorf("status code error:
%d %s", ...)` value carrying the numeric code and status line, and a
parse failure. -/
inductive ScrapeError where
  | fetchError (msg : String)
  | statusError (code : Nat) (status : String)
  | parseError (msg : String)
deriving DecidableEq

/-- `scrapeWebsite` (src/api/index.go lines 115-157). The network fetch
and the HTML parser are the two external effects; they enter as the
`get` outcome and the `parse` function. -/
def scrapeWebsite (url selector : String) (get : HTTPOutcome)
    (parse : String → ParseOutcome) : Except ScrapeError (List ScrapeResult) :=
  match get with
  | .failure msg => .error (.fetchError msg)
  | .response code status body =>
    if code ≠ 200 then .error (.statusError code status)
    else
      match parse body with
      | .failure msg => .error (.parseError msg)
      | .document find => .ok (scrapeResults url (find selector))

/-! ## Helper lemmas -/

theorem string_mk_eq_empty_iff (l : List Char) : String.mk l = "" ↔ l = [] :=
  ⟨fun h => congrArg String.data h, fun h => by rw [h]⟩

theorem listStarts_cons_iff (p c : Char) (ps cs : List Char) :
    listStarts (p :: ps) (c :: cs) = true ↔ p = c ∧ listStarts ps cs = true := by
  simp [listStarts]

theorem listStarts_two {a b : Char} {l : List Char} (h : listStarts [a, b] l = true) :
    ∃ t, l = a :: b :: t := by
  match l with
  | [] => simp [listStarts] at h
  | [c] => simp [listStarts] at h
  | c :: d :: t =>
    rw [listStarts_cons_iff] at h
    obtain ⟨h1, h2⟩ := h
    rw [listStarts_cons_iff] at h2
    exact ⟨t, by rw [h1.symm, h2.1.symm]⟩

theorem listStarts_false_of_head_ne {p c : Char} (ps cs : List Char) (h : p ≠ c) :
    listStarts (p :: ps) (c :: cs) = false := by
  simp [listStarts, h]

/-- The inline normalization agrees with the spec's rule list everywhere. -/
theorem normalize_agrees (base href : String) :
    normalizeLink base href = specNormalize base href := by
  unfold normalizeLink specNormalize
  by_cases h0 : href = "" <;>
    by_cases h1 : goStartsWith href "http" = true <;>
      by_cases h2 : goStartsWith href "mailto:" = true <;>
        simp [h0, h1, h2]

/-- Absolute (`http`-prefixed) hrefs pass through unchanged. -/
theorem normalize_fixes_http (base href : String) (h : goStartsWith href "http" = true) :
    normalizeLink base href = href := by
  unfold normalizeLink
  simp [h]

/-! ## Claim theorems -/

/-- C1: the link normalizer applies exactly the spec's rules in the
spec's precedence — empty hrefs map to the empty string, `http`- and
`mailto:`-prefixed hrefs pass through, root-relative hrefs are joined to
the first three `/`-separated segments of the base URL (or the whole
trailing-slash-stripped base when fewer than three exist), and all other
hrefs are joined path-relatively — including the two worked examples. -/
theorem normalizeLink_spec :
    (∀ base href, normalizeLink base href = specNormalize base href) ∧
    normalizeLink "https://example.com/a/b" "/c" = "https://example.com/c" ∧
    normalizeLink "https://example.com/a/b" "c" = "https://example.com/a/b/c" :=
  ⟨normalize_agrees, by decide, by decide⟩

/-- C8: normalization is idempotent on `http`-prefixed hrefs. -/
theorem normalizeLink_idem_http (base href : String)
    (h : goStartsWith href "http" = true) :
    normalizeLink base (normalizeLink base href) = normalizeLink base href := by
  have hfix := normalize_fixes_http base href h
  rw [hfix, hfix]

theorem normalizeLink_idem_http_witness :
    goStartsWith "http://x" "http" = true ∧
    normalizeLink "https://example.com" (normalizeLink "https://example.com" "http://x") =
      normalizeLink "https://example.com" "http://x" :=
  ⟨by decide, normalizeLink_idem_http "https://example.com" "http://x" (by decide)⟩

/-- C3 as stated is false: a protocol-relative href starts with `/`, so
the code resolves it in the root-relative branch (rule 3), not the
path-relative branch (rule 4). At base `https://example.com/a/b` and
href `//cdn.example.org/x` the code produces the rule-3 join
`https://example.com//cdn.example.org/x`, which differs from the rule-4
join the claim describes. -/
theorem protocol_relative_not_rule4 :
    normalizeLink "https://example.com/a/b" "//cdn.example.org/x" =
      "https://example.com//cdn.example.org/x" ∧
    normalizeLink "https://example.com/a/b" "//cdn.example.org/x" ≠
      goTrimSuffix "https://example.com/a/b" "/" ++ "/" ++ "//cdn.example.org/x" := by
  constructor
  · decide
  · decide

/-- C3 amended: protocol-relative hrefs are not special-cased, but they
fall into rule 3 (the root-relative branch), joining the origin derived
from the base URL with the `//…` href and producing a double-slash join. -/
theorem protocol_relative_rule3 (base href : String)
    (h : goStartsWith href "//" = true) :
    normalizeLink base href =
      if (goSplitSlash base).length ≥ 3 then
        goJoin "/" ((goSplitSlash base).take 3) ++ href
      else goTrimSuffix base "/" ++ href := by
  obtain ⟨t, ht⟩ := listStarts_two (l := href.data) h
  obtain ⟨l⟩ := href
  simp only at ht
  subst ht
  have hne : String.mk ('/' :: '/' :: t) ≠ "" := by
    rw [ne_eq, string_mk_eq_empty_iff]
    simp
  have h1 : goStartsWith ⟨'/' :: '/' :: t⟩ "http" = false :=
    listStarts_false_of_head_ne _ _ (by decide)
  have h2 : goStartsWith ⟨'/' :: '/' :: t⟩ "mailto:" = false :=
    listStarts_false_of_head_ne _ _ (by decide)
  have h3 : goStartsWith ⟨'/' :: '/' :: t⟩ "/" = true := by
    rw [show goStartsWith ⟨'/' :: '/' :: t⟩ "/" = listStarts ['/'] ('/' :: '/' :: t) from rfl]
    simp [listStarts]
  unfold normalizeLink
  simp [hne, h1, h2, h3]

theorem protocol_relative_rule3_witness :
    goStartsWith "//cdn.example.org/x" "//" = true ∧
    normalizeLink "https://example.com" "//cdn.example.org/x" =
      if (goSplitSlash "https://example.com").length ≥ 3 then
        goJoin "/" ((goSplitSlash "https://example.com").take 3) ++ "//cdn.example.org/x"
      else goTrimSuffix "https://example.com" "/" ++ "//cdn.example.org/x" :=
  ⟨by decide, protocol_relative_rule3 "https://example.com" "//cdn.example.org/x" (by decide)⟩

theorem addToVisited_concat (v : List String) (u : String) :
    ∃ l, addToVisited v u = l ++ [u] := by
  unfold addToVisited
  by_cases hm : u ∈ v
  · exact ⟨v.erase u, by rw [if_pos hm]⟩
  · rw [if_neg hm]
    by_cases hlen : (v ++ [u]).length > 10
    · refine ⟨v.drop 1, ?_⟩
      simp only [if_pos hlen]
      cases v with
      | nil => simp at hlen
      | cons a as => simp
    · exact ⟨v, by simp only [if_neg hlen]⟩

/-- Recording a URL distinct from the current last entry keeps that
entry in the list and puts the new URL at the end. -/
theorem addToVisited_keeps_last (l : List String) (x u : String) (hne : x ≠ u) :
    ∃ t, addToVisited (l ++ [x]) u = t ++ [u] ∧ x ∈ t := by
  unfold addToVisited
  by_cases hm : u ∈ l ++ [x]
  · refine ⟨(l ++ [x]).erase u, by rw [if_pos hm], ?_⟩
    exact (List.mem_erase_of_ne hne).mpr (by simp)
  · rw [if_neg hm]
    by_cases hlen : ((l ++ [x]) ++ [u]).length > 10
    · cases l with
      | nil => simp at hlen
      | cons a as =>
        refine ⟨as ++ [x], ?_, by simp⟩
        simp only [if_pos hlen]
        simp
    · exact ⟨l ++ [x], by simp only [if_neg hlen], by simp⟩

/-- C2: recording an already-present URL moves it from its position to
the end without changing the length; recording a fresh URL appends it
and evicts the front entry exactly when the length passes 10; the
snapshot is the reverse of the internal order; and after recording
distinct `u1` then `u2`, the snapshot holds `u2` first with `u1`
somewhere after it. -/
theorem addToVisited_record_spec :
    (∀ (v : List String) (u : String), u ∈ v →
      (∃ l1 l2, u ∉ l1 ∧ v = l1 ++ u :: l2 ∧ addToVisited v u = (l1 ++ l2) ++ [u]) ∧
      (addToVisited v u).length = v.length) ∧
    (∀ (v : List String) (u : String), u ∉ v →
      addToVisited v u =
        if v.length + 1 > 10 then (v ++ [u]).drop 1 else v ++ [u]) ∧
    (∀ v : List String, (getVisited v).1 = v.reverse) ∧
    (∀ (v : List String) (u1 u2 : String), u1 ≠ u2 →
      ∃ l, (getVisited (addToVisited (addToVisited v u1) u2)).1 = u2 :: l ∧ u1 ∈ l) := by
  refine ⟨?_, ?_, fun v => rfl, ?_⟩
  · intro v u hm
    have hlen : 1 ≤ v.length := List.length_pos.mpr (List.ne_nil_of_mem hm)
    constructor
    · obtain ⟨l1, l2, hnotin, hsplit, herase⟩ := List.exists_erase_eq hm
      exact ⟨l1, l2, hnotin, hsplit, by rw [addToVisited, if_pos hm, herase]⟩
    · rw [addToVisited, if_pos hm]
      simp [List.length_erase_of_mem hm]
      omega
  · intro v u hm
    rw [addToVisited, if_neg hm]
    simp
  · intro v u1 u2 hne
    obtain ⟨l, hl⟩ := addToVisited_concat v u1
    obtain ⟨t, ht, hx⟩ := addToVisited_keeps_last l u1 u2 hne
    refine ⟨t.reverse, ?_, by simpa using hx⟩
    rw [hl, ht]
    simp [getVisited]

theorem addToVisited_record_spec_witness :
    ∃ l, (getVisited (addToVisited (addToVisited ["a"] "b") "c")).1 = "c" :: l ∧
      "b" ∈ l :=
  addToVisited_record_spec.2.2.2 ["a"] "b" "c" (by decide)

/-- C7: the history invariant (length at most 10, no duplicates) holds
for the initial empty state and is preserved by every record call. -/
theorem visitInvariant_preserved :
    VisitInvariant [] ∧
    ∀ (v : List String) (u : String), VisitInvariant v →
      VisitInvariant (addToVisited v u) := by
  refine ⟨⟨by simp, List.nodup_nil⟩, ?_⟩
  rintro v u ⟨hlen, hnd⟩
  by_cases hm : u ∈ v
  · rw [addToVisited, if_pos hm]
    constructor
    · have h1 : 1 ≤ v.length := List.length_pos.mpr (List.ne_nil_of_mem hm)
      simp [List.length_erase_of_mem hm]
      omega
    · rw [List.nodup_append]
      refine ⟨hnd.erase u, List.nodup_singleton u, ?_⟩
      intro a ha hb
      rw [List.mem_singleton] at hb
      subst hb
      exact hnd.not_mem_erase ha
  · rw [addToVisited, if_neg hm]
    have hnd' : (v ++ [u]).Nodup := by
      rw [List.nodup_append]
      refine ⟨hnd, List.nodup_singleton u, ?_⟩
      intro a ha hb
      rw [List.mem_singleton] at hb
      subst hb
      exact hm ha
    by_cases hbig : (v ++ [u]).length > 10
    · simp only [if_pos hbig]
      constructor
      · simp at hbig ⊢
        omega
      · exact (List.drop_sublist 1 _).nodup hnd'
    · simp only [if_neg hbig]
      constructor
      · simp at hbig ⊢
        omega
      · exact hnd'

theorem visitInvariant_preserved_witness :
    VisitInvariant (addToVisited ["a"] "b") :=
  visitInvariant_preserved.2 ["a"] "b" (by decide)

/-- C9: the snapshot read leaves the shared list exactly as it was,
returns the reverse of it, and a repeated snapshot after the first one
returns the same sequence — the caller receives a copy, not a view of
the shared state. -/
theorem getVisited_pure :
    ∀ v : List String, (getVisited v).2 = v ∧ (getVisited v).1 = v.reverse ∧
      (getVisited ((getVisited v).2)).1 = (getVisited v).1 :=
  fun _ => ⟨rfl, rfl, rfl⟩

theorem dropWhile_head_not {p : Char → Bool} :
    ∀ {l : List Char} {x : Char} {xs : List Char},
      l.dropWhile p = x :: xs → p x = false := by
  intro l
  induction l with
  | nil => intro x xs h; simp [List.dropWhile] at h
  | cons a as ih =>
    intro x xs h
    rw [List.dropWhile_cons] at h
    split at h
    · exact ih h
    · rename_i hpa
      cases h
      simpa using hpa

/-- A non-empty trim result is never all-whitespace: its first character
survived the leading `dropWhile`. -/
theorem goTrimSpace_not_all_space (s : String) (h : goTrimSpace s ≠ "") :
    (goTrimSpace s).data.all goIsSpace = false := by
  rw [Bool.eq_false_iff]
  intro hall
  unfold goTrimSpace at h hall
  rw [ne_eq, string_mk_eq_empty_iff] at h
  rcases hc : (s.data.dropWhile goIsSpace).reverse.dropWhile goIsSpace with _ | ⟨x, t⟩
  · rw [hc] at h
    simp at h
  · have hx : goIsSpace x = false := dropWhile_head_not hc
    rw [hc] at hall
    rw [List.all_eq_true] at hall
    have := hall x (by simp)
    rw [hx] at this
    cases this

/-- C5: every result carries a non-empty, not-all-whitespace title equal
to the trimmed text of one of the matched nodes; empty-trim nodes are
skipped. -/
theorem scrapeResults_titles (url : String) (nodes : List HTMLNode) (r : ScrapeResult)
    (hr : r ∈ scrapeResults url nodes) :
    r.Title ≠ "" ∧ r.Title.data.all goIsSpace = false ∧
      ∃ n ∈ nodes, r.Title = goTrimSpace n.text := by
  obtain ⟨n, hn, hpn⟩ := List.mem_filterMap.mp hr
  unfold processNode at hpn
  by_cases ht : goTrimSpace n.text = ""
  · simp [ht] at hpn
  · simp only [if_neg ht, Option.some.injEq] at hpn
    subst hpn
    exact ⟨ht, goTrimSpace_not_all_space n.text ht, n, hn, rfl⟩

theorem scrapeResults_titles_witness :
    ("T" : String) ≠ "" ∧ ("T" : String).data.all goIsSpace = false ∧
      ∃ n ∈ [HTMLNode.mk " T " (some "/a")], ("T" : String) = goTrimSpace n.text :=
  scrapeResults_titles "https://example.com" [⟨" T ", some "/a"⟩]
    ⟨"T", "https://example.com/a"⟩ (by decide)

/-- C4: given a response, `scrapeWebsite` returns the status error
(carrying the numeric code and status line) exactly when the code is
not 200; in particular a 404 response yields the status error with
code 404, never a transport or parse error. -/
theorem scrapeWebsite_status (url sel status body : String) (code : Nat)
    (parse : String → ParseOutcome) :
    (scrapeWebsite url sel (.response code status body) parse =
        .error (.statusError code status) ↔ code ≠ 200) ∧
    (code = 404 →
      scrapeWebsite url sel (.response code status body) parse =
        .error (.statusError 404 status)) := by
  constructor
  · by_cases hc : code = 200
    · subst hc
      cases hp : parse body <;> simp [scrapeWebsite, hp]
    · simp [scrapeWebsite, hc]
  · intro h404
    subst h404
    simp [scrapeWebsite]

theorem scrapeWebsite_status_witness :
    scrapeWebsite "https://example.com" "h2 a"
        (.response 404 "404 Not Found" "<html></html>")
        (fun _ => ParseOutcome.document fun _ => []) =
      .error (.statusError 404 "404 Not Found") :=
  (scrapeWebsite_status "https://example.com" "h2 a" "404 Not Found" "<html></html>"
    404 (fun _ => ParseOutcome.document fun _ => [])).2 rfl

/-- C6: when the selector matches no node, or only nodes with
empty-trimming text, the scrape succeeds with the empty result list. -/
theorem scrapeWebsite_empty_ok (url sel status body : String)
    (find : String → List HTMLNode) (parse : String → ParseOutcome)
    (hp : parse body = .document find)
    (hn : ∀ n ∈ find sel, goTrimSpace n.text = "") :
    scrapeWebsite url sel (.response 200 status body) parse = .ok [] := by
  simp only [scrapeWebsite]
  rw [if_neg (by decide), hp]
  show Except.ok (scrapeResults url (find sel)) = Except.ok []
  refine congrArg Except.ok (List.filterMap_eq_nil_iff.mpr ?_)
  intro n hmem
  simp [processNode, hn n hmem]

theorem scrapeWebsite_empty_ok_witness :
    scrapeWebsite "https://example.com" ".titleline" (.response 200 "200 OK" "<html></html>")
        (fun _ => ParseOutcome.document fun _ => [⟨"  ", some "/a"⟩]) = .ok [] :=
  scrapeWebsite_empty_ok "https://example.com" ".titleline" "200 OK" "<html></html>"
    (fun _ => [⟨"  ", some "/a"⟩]) (fun _ => ParseOutcome.document fun _ => [⟨"  ", some "/a"⟩])
    rfl (by decide)

/-- C10: a matched node with non-empty trimmed text but no href
attribute still yields a result, whose link is the empty string; the
missing attribute is processed exactly like an empty href, on which the
normalization is the identity. -/
theorem scrapeResults_missing_href (url : String) (nodes : List HTMLNode) (n : HTMLNode)
    (hmem : n ∈ nodes) (hhref : n.href = none) (ht : goTrimSpace n.text ≠ "") :
    ScrapeResult.mk (goTrimSpace n.text) "" ∈ scrapeResults url nodes ∧
      processNode url n = processNode url ⟨n.text, some ""⟩ := by
  have hlink : normalizeLink url "" = "" := by simp [normalizeLink]
  constructor
  · refine List.mem_filterMap.mpr ⟨n, hmem, ?_⟩
    simp [processNode, ht, hhref, hlink]
  · simp [processNode, hhref, hlink]

theorem scrapeResults_missing_href_witness :
    ScrapeResult.mk "T" "" ∈ scrapeResults "https://example.com" [⟨"T", none⟩] ∧
      processNode "https://example.com" ⟨"T", none⟩ =
        processNode "https://example.com" ⟨"T", some ""⟩ :=
  scrapeResults_missing_href "https://example.com" [⟨"T", none⟩] ⟨"T", none⟩
    (by decide) rfl (by decide)

end Scraper
